import Mathlib

/-!
# Verification of the TagStudio Qt driver (src/tagstudio/src/qt/ts_qt.py)

A shallow embedding of the thumbnail job queue (`Consumer.run`, the
cancellation prologue of `QtDriver.update_thumbs`) and of the grid /
pagination / selection state machine (`QtDriver.select_item`,
`QtDriver.filter_items`, `QtDriver.page_move`,
`QtDriver.select_all_action_callback`, `QtDriver.clear_select_action_callback`,
`QtDriver.close_library`, `QtDriver.update_libs_list`), together with proofs
and refutations of the specified properties.

Machine reals returned by `time.time()` are modelled as a strictly
monotone `Nat` clock; `sys.float_info.max` is modelled as a distinguished
top timestamp.
-/

namespace TagStudio

/-- A library entry as far as this file needs it: its path relative to the
library directory (`entry.path` in the source). -/
structure Entry where
  path : String
deriving DecidableEq, Repr

/-! ## Consumer.run (worker loop)

The worker loop body is
`try: job = queue.get(); if job == MARKER_QUIT: break; job[0](*job[1])
except RuntimeError: pass`.
A dequeued render job can run to completion, raise `RuntimeError`
(the failure class raised when the underlying Qt thread object is torn
down mid-call), or raise any other exception class. -/

/-- Possible behaviours of one dequeued render job when invoked. -/
inductive JobSpec where
  | ok
  | raisesRuntime
  | raisesOther
deriving DecidableEq, Repr

/-- One item held in the shared job queue: either the `MARKER_QUIT`
terminator string or a render job. -/
inductive QItem where
  | marker
  | job (j : JobSpec)
deriving DecidableEq, Repr

/-- How the worker loop ends on a given finite queue content: still blocked
on `queue.get()`, exited normally via the terminator, or crashed because an
exception other than `RuntimeError` propagated out of `run`. -/
inductive RunOutcome where
  | blocked
  | exited
  | crashed
deriving DecidableEq, Repr

/-- `Consumer.run` on a finite queue content, returning the outcome and the
list of jobs whose render function was invoked, in invocation order.
A job raising `RuntimeError` is invoked, its exception is caught by
`except RuntimeError: pass`, and the loop continues; any other exception
propagates out of the `while` loop, so later items are never dequeued. -/
def consumerRun : List QItem → RunOutcome × List JobSpec
  | [] => (.blocked, [])
  | .marker :: _ => (.exited, [])
  | .job .raisesOther :: _ => (.crashed, [.raisesOther])
  | .job .ok :: rest => ((consumerRun rest).1, .ok :: (consumerRun rest).2)
  | .job .raisesRuntime :: rest =>
      ((consumerRun rest).1, .raisesRuntime :: (consumerRun rest).2)

/-- The jobs contained in a queue segment, in order. -/
def jobsOf : List QItem → List JobSpec
  | [] => []
  | .marker :: rest => jobsOf rest
  | .job j :: rest => j :: jobsOf rest

/-- A render-job timestamp: either a concrete `time.time()` reading
(real-content jobs, lines 1142 and 1171) or the maximum-priority value
`sys.float_info.max` that `update_thumbs` stamps on placeholder jobs
(line 1125). -/
inductive TS where
  | time (t : Nat)
  | maxPrio
deriving DecidableEq, Repr

/-- The commit-time staleness test of the renderer: a result is discarded
exactly when its job timestamp predates the cutoff.  A placeholder stamped
`sys.float_info.max` is never stale, whatever the cutoff. -/
def tsBelow : TS → Nat → Bool
  | .time t, c => t < c
  | .maxPrio, _ => false

/-! ## Thumbnail job queue with cancellation (update_thumbs prologue)

State of the shared queue, the render workers and the cutoff watermark.
`submit`/`submitPlaceholder` are `thumb_job_queue.put` (which locks the
queue mutex) for a real-content and a placeholder job respectively; the
cancellation step is the `with self.thumb_job_queue.mutex:` block of
`update_thumbs` (clear the queue, notify waiters, set
`ItemThumb.update_cutoff = time.time()` — one atomic block, since `put`
takes the same mutex).  A worker pops a job, renders, and at commit time
compares the job timestamp with the live cutoff: a result whose timestamp
predates the cutoff is discarded. -/

/-- Queue/worker/cutoff state.  Jobs are identified by their timestamp.
`pending` is the FIFO queue contents, `inflight` the multiset of jobs
popped by workers but not yet committed or discarded, `committed` the
timestamps whose results were applied to the UI.  `clock` is the strictly
monotone time source read by `time.time()`; the cutoff is always such a
reading. -/
structure QState where
  pending : List TS
  inflight : List TS
  cutoff : Nat
  clock : Nat
  committed : List TS
deriving DecidableEq, Repr

/-- Initial state: empty queue, cutoff taken at startup
(`self.thumb_cutoff = time.time()` / class initialisation of
`ItemThumb.update_cutoff`), clock strictly past it. -/
def initQState : QState :=
  { pending := [], inflight := [], cutoff := 0, clock := 1, committed := [] }

/-- The cancellation prologue of `update_thumbs`, executed under the queue
mutex as one atomic block: clear all pending jobs and advance the cutoff to
the current time. -/
def cancelAllStep (s : QState) : QState :=
  { pending := [], inflight := s.inflight, cutoff := s.clock,
    clock := s.clock + 1, committed := s.committed }

/-- Interleaving semantics of the queue subsystem.  Each constructor is one
atomic step: `submit`, `submitPlaceholder` and `cancelAll` hold the queue
mutex; `pop` is the blocking `queue.get`; `commit` and `discard` are the
commit-time cutoff check inside the renderer. -/
inductive QStep : QState → QState → Prop where
  | submit (s : QState) :
      QStep s { pending := s.pending ++ [TS.time s.clock],
                inflight := s.inflight, cutoff := s.cutoff,
                clock := s.clock + 1, committed := s.committed }
  | submitPlaceholder (s : QState) :
      QStep s { pending := s.pending ++ [TS.maxPrio], inflight := s.inflight,
                cutoff := s.cutoff, clock := s.clock,
                committed := s.committed }
  | cancelAll (s : QState) : QStep s (cancelAllStep s)
  | pop (s : QState) (t : TS) (rest : List TS) (h : s.pending = t :: rest) :
      QStep s { pending := rest, inflight := t :: s.inflight,
                cutoff := s.cutoff, clock := s.clock, committed := s.committed }
  | commit (s : QState) (t : TS) (hm : t ∈ s.inflight)
      (hc : tsBelow t s.cutoff = false) :
      QStep s { pending := s.pending, inflight := s.inflight.erase t,
                cutoff := s.cutoff, clock := s.clock,
                committed := t :: s.committed }
  | discard (s : QState) (t : TS) (hm : t ∈ s.inflight)
      (hc : tsBelow t s.cutoff = true) :
      QStep s { pending := s.pending, inflight := s.inflight.erase t,
                cutoff := s.cutoff, clock := s.clock, committed := s.committed }

/-- Steps available while no further cancellation runs. -/
inductive QStepNC : QState → QState → Prop where
  | submit (s : QState) :
      QStepNC s { pending := s.pending ++ [TS.time s.clock],
                  inflight := s.inflight, cutoff := s.cutoff,
                  clock := s.clock + 1, committed := s.committed }
  | submitPlaceholder (s : QState) :
      QStepNC s { pending := s.pending ++ [TS.maxPrio],
                  inflight := s.inflight, cutoff := s.cutoff,
                  clock := s.clock, committed := s.committed }
  | pop (s : QState) (t : TS) (rest : List TS) (h : s.pending = t :: rest) :
      QStepNC s { pending := rest, inflight := t :: s.inflight,
                  cutoff := s.cutoff, clock := s.clock,
                  committed := s.committed }
  | commit (s : QState) (t : TS) (hm : t ∈ s.inflight)
      (hc : tsBelow t s.cutoff = false) :
      QStepNC s { pending := s.pending, inflight := s.inflight.erase t,
                  cutoff := s.cutoff, clock := s.clock,
                  committed := t :: s.committed }
  | discard (s : QState) (t : TS) (hm : t ∈ s.inflight)
      (hc : tsBelow t s.cutoff = true) :
      QStepNC s { pending := s.pending, inflight := s.inflight.erase t,
                  cutoff := s.cutoff, clock := s.clock,
                  committed := s.committed }

/-- Multi-step reachability between queue states. -/
def QReach : QState → QState → Prop := Relation.ReflTransGen QStep

/-- Reachability from the initial state. -/
def QReachable (s : QState) : Prop := QReach initQState s

/-- Multi-step reachability using only non-cancellation steps. -/
def QReachNC : QState → QState → Prop := Relation.ReflTransGen QStepNC

/-! ## update_thumbs job submission (two passes over the grid)

`update_thumbs` walks `zip_longest(frame_content, item_thumbs)` twice.
The first pass puts, for every populated slot, one placeholder job
`(render, (sys.float_info.max, "", base_size, ratio, True, True))`.
The second pass puts, for every populated slot, a job
`(render, (time.time(), filepath, base_size, ratio, False, True))`
and then — after badge/clickable/border bookkeeping — a second job
`(render, (time.time(), filepath, base_size, ratio, False, True))`. -/

/-- One thumbnail render job as submitted by `update_thumbs`: timestamp,
source path (empty for the loading placeholder) and the `is_loading` flag.
The remaining arguments (`base_size`, `ratio`, `is_grid_thumb`) are the same
for every job of a batch and carry no information for the claims. -/
structure RenderJob where
  timestamp : TS
  path : String
  isLoading : Bool
deriving DecidableEq, Repr

/-- First pass of `update_thumbs`: one placeholder job per populated slot. -/
def placeholderJobs : List (Option Entry) → List RenderJob
  | [] => []
  | none :: rest => placeholderJobs rest
  | some _ :: rest =>
      { timestamp := .maxPrio, path := "", isLoading := true } ::
        placeholderJobs rest

/-- Second pass of `update_thumbs`: two real-content jobs per populated
slot, each timestamped by its own `time.time()` call. -/
def realJobs (clock : Nat) : List (Option Entry) → List RenderJob
  | [] => []
  | none :: rest => realJobs clock rest
  | some e :: rest =>
      { timestamp := .time clock, path := e.path, isLoading := false } ::
        { timestamp := .time (clock + 1), path := e.path, isLoading := false } ::
          realJobs (clock + 2) rest

/-- The full job batch one `update_thumbs` call puts on the queue, in
submission order, for a grid whose slot contents are `frame`. -/
def updateThumbsJobs (clock : Nat) (frame : List (Option Entry)) :
    List RenderJob :=
  placeholderJobs frame ++ realJobs clock frame

/-- Number of populated slots of a frame. -/
def popCount (frame : List (Option Entry)) : Nat :=
  frame.countP (fun e => e.isSome)

/-! ## Python value equality (the border-restore step)

Line 1165 of the source computes
`is_selected = (item_thumb.mode, item_thumb.item_id) in self.selected`
where `self.selected : list[int]` holds grid indices.  Python membership
compares the tuple against each int with `==`, which is `False` across
types, so the test is modelled with an explicit Python value type. -/

/-- The Python values reaching the border-restore comparison: ints, enum
symbols such as `ItemType.ENTRY`, and tuples. -/
inductive PyVal where
  | int (n : Int)
  | sym (s : String)
  | pair (a b : PyVal)
deriving DecidableEq, Repr

/-- Python `==` on those values: structural within one constructor,
`False` across constructors. -/
def pyEq : PyVal → PyVal → Bool
  | .int a, .int b => a == b
  | .sym a, .sym b => a == b
  | .pair a b, .pair c d => pyEq a c && pyEq b d
  | _, _ => false

/-- Python `x in l` for a list of values. -/
def pyMem (x : PyVal) (l : List PyVal) : Bool :=
  l.any (fun v => pyEq x v)

/-- The border-restore computation of `update_thumbs` (line 1165):
`(item_thumb.mode, item_thumb.item_id) in self.selected`, with the
selection a list of grid-index ints. -/
def restoreIsSelected (mode itemId : PyVal) (selected : List Int) : Bool :=
  pyMem (.pair mode itemId) (selected.map .int)

/-! ## Driver grid / selection state machine -/

/-- The driver state the selection claims range over: the selection list
(`self.selected`, grid indices) and the populated grid slots
(`self.frame_content`; after `filter_items` these are the entries of the
current result window, one per populated slot, in slot order). -/
structure DriverState where
  selected : List Nat
  frameContent : List Entry
deriving DecidableEq, Repr

/-- Driver state at startup: nothing selected, no results. -/
def initDriver : DriverState := { selected := [], frameContent := [] }

/-- Minimum of a nonempty list, `min(self.selected)` (0 on `[]`, unused). -/
def listMin : List Nat → Nat
  | [] => 0
  | x :: xs => xs.foldl Nat.min x

/-- Maximum of a nonempty list, `max(self.selected)` (0 on `[]`, unused). -/
def listMax : List Nat → Nat
  | [] => 0
  | x :: xs => xs.foldl Nat.max x

/-- `QtDriver.select_item(grid_index, append, bridge)`, selection part.
The widget side effects (`thumb_button.set_selected`) are presentation and
not part of the selection state. -/
def selectItemOp (s : DriverState) (gridIndex : Nat) (append bridge : Bool) :
    DriverState :=
  if append then
    if s.selected.contains gridIndex then
      { s with selected := s.selected.erase gridIndex }
    else
      { s with selected := s.selected ++ [gridIndex] }
  else if bridge && !s.selected.isEmpty then
    let selectFrom := listMin s.selected
    let selectTo := listMax s.selected
    { s with selected :=
        if selectTo < gridIndex then
          List.range' selectFrom (gridIndex + 1 - selectFrom)
        else
          List.range' gridIndex (selectTo + 1 - gridIndex) }
  else
    { s with selected := [gridIndex] }

/-- `QtDriver.select_all_action_callback`:
`self.selected = list(range(0, len(self.frame_content)))`. -/
def selectAllOp (s : DriverState) : DriverState :=
  { s with selected := List.range s.frameContent.length }

/-- `QtDriver.clear_select_action_callback`: `self.selected.clear()`. -/
def clearSelectOp (s : DriverState) : DriverState :=
  { s with selected := [] }

/-- `QtDriver.filter_items` (also reached through `page_move`): replaces
`frame_content` with the new search window and re-renders.  The function
does not touch `self.selected`. -/
def filterItemsOp (s : DriverState) (items : List Entry) : DriverState :=
  { s with frameContent := items }

/-- `QtDriver.close_library` (non-shutdown path): clears the selection and
the frame. -/
def closeLibraryOp (_ : DriverState) : DriverState :=
  { selected := [], frameContent := [] }

/-- One user-level driver operation.  Clicks (`select_item`) only arrive
through the `update_clickable` callbacks that `update_thumbs` installs on
populated slots, so the clicked index is within the populated window. -/
inductive DStep : DriverState → DriverState → Prop where
  | selectItem (s : DriverState) (i : Nat) (append bridge : Bool)
      (h : i < s.frameContent.length) :
      DStep s (selectItemOp s i append bridge)
  | selectAll (s : DriverState) : DStep s (selectAllOp s)
  | clearSelect (s : DriverState) : DStep s (clearSelectOp s)
  | filterItems (s : DriverState) (items : List Entry) :
      DStep s (filterItemsOp s items)
  | closeLibrary (s : DriverState) : DStep s (closeLibraryOp s)

/-- Driver states reachable from startup. -/
def DReachable (s : DriverState) : Prop :=
  Relation.ReflTransGen DStep initDriver s

/-- The claimed selection invariant, as a decidable check: every selected
grid index refers to a populated slot. -/
def selInv (s : DriverState) : Bool :=
  s.selected.all (fun i => i < s.frameContent.length)

/-! ## Pagination -/

/-- `self.pages_count = math.ceil(results.total_count / self.filter.page_size)`
(line 1224).  Python true division of ints is modelled exactly over `ℚ`. -/
def pagesCount (totalCount pageSize : Nat) : Nat :=
  (⌈(totalCount : ℚ) / (pageSize : ℚ)⌉).toNat

/-- The clamp of `page_move` (line 936):
`page_index = max(0, min(page_index, self.pages_count - 1))`.  The
requested index is an `Int` because the delta form can go below zero. -/
def pageMoveClamp (requested : Int) (pc : Nat) : Int :=
  max 0 (min requested ((pc : Int) - 1))

/-! ## Recent-libraries list (update_libs_list)

The settings group is a finite map from insertion-timestamp keys to library
path strings, modelled as an association list.  Keys are `str(time.time())`
readings; for the lifetime of the epoch format these decimal strings have
equal integer-part width, so the string sort of the source coincides with
the numeric order, and keys are modelled as `Nat` timestamps. -/

/-- `QtDriver.update_libs_list(path)`: build a dict holding the fresh
`(now, path)` entry first and every existing entry whose stored path
differs from `path`, sort it most-recent-first by key, drop everything
beyond five entries, and store the result. -/
def updateLibsList (now : Nat) (path : String) (settings : List (Nat × String)) :
    List (Nat × String) :=
  (((now, path) :: settings.filter (fun kv => decide (kv.2 ≠ path))).mergeSort
      (fun a b => decide (b.1 ≤ a.1))).take 5

/-! ## Helper lemmas: list minimum and maximum -/

theorem foldl_min_le_init (xs : List Nat) (acc : Nat) :
    xs.foldl Nat.min acc ≤ acc := by
  induction xs generalizing acc with
  | nil => simp
  | cons y ys ih =>
    exact le_trans (ih (Nat.min acc y)) (Nat.min_le_left acc y)

theorem foldl_min_le_mem (xs : List Nat) (acc x : Nat) (hx : x ∈ xs) :
    xs.foldl Nat.min acc ≤ x := by
  induction xs generalizing acc with
  | nil => cases hx
  | cons y ys ih =>
    rcases List.mem_cons.mp hx with rfl | hx
    · exact le_trans (foldl_min_le_init ys (Nat.min acc x)) (Nat.min_le_right acc x)
    · exact ih (Nat.min acc y) hx

theorem init_le_foldl_max (xs : List Nat) (acc : Nat) :
    acc ≤ xs.foldl Nat.max acc := by
  induction xs generalizing acc with
  | nil => simp
  | cons y ys ih =>
    exact le_trans (Nat.le_max_left acc y) (ih (Nat.max acc y))

theorem mem_le_foldl_max (xs : List Nat) (acc x : Nat) (hx : x ∈ xs) :
    x ≤ xs.foldl Nat.max acc := by
  induction xs generalizing acc with
  | nil => cases hx
  | cons y ys ih =>
    rcases List.mem_cons.mp hx with rfl | hx
    · exact le_trans (Nat.le_max_right acc x) (init_le_foldl_max ys (Nat.max acc x))
    · exact ih (Nat.max acc y) hx

theorem listMin_le (l : List Nat) (x : Nat) (hx : x ∈ l) : listMin l ≤ x := by
  cases l with
  | nil => cases hx
  | cons y ys =>
    rcases List.mem_cons.mp hx with rfl | hx
    · exact foldl_min_le_init ys x
    · exact foldl_min_le_mem ys y x hx

theorem le_listMax (l : List Nat) (x : Nat) (hx : x ∈ l) : x ≤ listMax l := by
  cases l with
  | nil => cases hx
  | cons y ys =>
    rcases List.mem_cons.mp hx with rfl | hx
    · exact init_le_foldl_max ys x
    · exact mem_le_foldl_max ys y x hx

theorem foldl_max_mem (xs : List Nat) (acc : Nat) :
    xs.foldl Nat.max acc = acc ∨ xs.foldl Nat.max acc ∈ xs := by
  induction xs generalizing acc with
  | nil => exact .inl rfl
  | cons y ys ih =>
    rw [List.foldl_cons]
    rcases ih (Nat.max acc y) with h | h
    · rw [h]
      rcases Nat.le_total acc y with h2 | h2
      · have h3 : Nat.max acc y = y := Nat.max_eq_right h2
        exact .inr (by rw [h3]; exact List.mem_cons_self y ys)
      · have h3 : Nat.max acc y = acc := Nat.max_eq_left h2
        exact .inl h3
    · exact .inr (List.mem_cons_of_mem y h)

theorem listMax_mem (l : List Nat) (h : l ≠ []) : listMax l ∈ l := by
  cases l with
  | nil => exact absurd rfl h
  | cons y ys =>
    show ys.foldl Nat.max y ∈ y :: ys
    rcases foldl_max_mem ys y with h2 | h2
    · rw [h2]; exact List.mem_cons_self y ys
    · exact List.mem_cons_of_mem y h2

theorem listMin_le_listMax (l : List Nat) (h : l ≠ []) :
    listMin l ≤ listMax l :=
  le_trans (listMin_le l (listMax l) (listMax_mem l h)) le_rfl

/-! ## Claims C6 and C7: select_item bridge and append modes -/

/-- Claim C6: with a non-empty selection, bridge mode replaces the
selection with the contiguous inclusive index range spanning from the
existing minimum (when the click lies above the maximum) or up to the
existing maximum (otherwise) to the clicked index; in particular from
selection `[2, 5]`, clicking 0 yields `[0, 1, 2, 3, 4, 5]` and clicking 8
yields `[2, 3, 4, 5, 6, 7, 8]`. -/
theorem C6_select_item_bridge (sel : List Nat) (frame : List Entry) (i : Nat)
    (h : sel ≠ []) :
    (∀ j : Nat,
      j ∈ (selectItemOp ⟨sel, frame⟩ i false true).selected ↔
        ((if listMax sel < i then listMin sel else i) ≤ j ∧
          j ≤ (if listMax sel < i then i else listMax sel))) ∧
    (selectItemOp ⟨[2, 5], frame⟩ 0 false true).selected = [0, 1, 2, 3, 4, 5] ∧
    (selectItemOp ⟨[2, 5], frame⟩ 8 false true).selected = [2, 3, 4, 5, 6, 7, 8] := by
  have hne : sel.isEmpty = false := by
    cases sel with
    | nil => exact absurd rfl h
    | cons a l => rfl
  have hsel : (selectItemOp ⟨sel, frame⟩ i false true).selected =
      (if listMax sel < i then List.range' (listMin sel) (i + 1 - listMin sel)
        else List.range' i (listMax sel + 1 - i)) := by
    simp [selectItemOp, hne]
  refine ⟨?_, rfl, rfl⟩
  intro j
  have hminmax := listMin_le_listMax sel h
  rw [hsel]
  by_cases hlt : listMax sel < i
  · simp only [if_pos hlt, List.mem_range'_1]
    omega
  · simp only [if_neg hlt, List.mem_range'_1]
    omega

/-- Claim C6, witness: the theorem applied to the concrete selection
`[2, 5]` of the specification. -/
theorem C6_select_item_bridge_witness :
    (selectItemOp ⟨[2, 5], []⟩ 0 false true).selected = [0, 1, 2, 3, 4, 5] ∧
    (selectItemOp ⟨[2, 5], []⟩ 8 false true).selected = [2, 3, 4, 5, 6, 7, 8] :=
  ⟨(C6_select_item_bridge [2, 5] [] 0 (by decide)).2.1,
    (C6_select_item_bridge [2, 5] [] 8 (by decide)).2.2⟩

/-- Claim C7: append mode toggles membership of the clicked index and
preserves every other member of the selection, whatever the bridge
modifier. -/
theorem C7_select_item_append (sel : List Nat) (frame : List Entry) (i : Nat)
    (bridge : Bool) (h : sel.Nodup) :
    ((i ∈ (selectItemOp ⟨sel, frame⟩ i true bridge).selected) ↔ i ∉ sel) ∧
    (∀ j : Nat, j ≠ i →
      ((j ∈ (selectItemOp ⟨sel, frame⟩ i true bridge).selected) ↔ j ∈ sel)) := by
  by_cases hc : i ∈ sel
  · have hsel : (selectItemOp ⟨sel, frame⟩ i true bridge).selected =
        sel.erase i := by
      simp [selectItemOp, hc]
    rw [hsel]
    constructor
    · simp [h.mem_erase_iff, hc]
    · intro j hj
      simp [h.mem_erase_iff, hj]
  · have hsel : (selectItemOp ⟨sel, frame⟩ i true bridge).selected =
        sel ++ [i] := by
      simp [selectItemOp, hc]
    rw [hsel]
    constructor
    · simp [hc]
    · intro j hj
      simp [hj]

/-- Claim C7, witness: toggling on the selection `[2, 5]`, once removing an
already-selected index and once adding a fresh one. -/
theorem C7_select_item_append_witness :
    ((5 ∈ (selectItemOp ⟨[2, 5], []⟩ 5 true false).selected) ↔ 5 ∉ [2, 5]) ∧
    ((3 ∈ (selectItemOp ⟨[2, 5], []⟩ 3 true false).selected) ↔ 3 ∉ [2, 5]) :=
  ⟨(C7_select_item_append [2, 5] [] 5 false (by decide)).1,
    (C7_select_item_append [2, 5] [] 3 false (by decide)).1⟩

/-! ## Claim C8: page count and page clamp -/

theorem pagesCount_eq_add_pred_div (t s : Nat) (hs : 0 < s) :
    pagesCount t s = (t + s - 1) / s := by
  have e := Nat.div_add_mod (t + s - 1) s
  have hr : (t + s - 1) % s < s := Nat.mod_lt _ hs
  set k := (t + s - 1) / s with hk
  have hcomm : s * k = k * s := Nat.mul_comm s k
  have hA : t ≤ k * s := by
    rcases Nat.eq_zero_or_pos t with rfl | ht
    · exact Nat.zero_le _
    · omega
  have hB : k * s < t + s := by omega
  have hceil : ⌈(t : ℚ) / (s : ℚ)⌉ = (k : ℤ) := by
    have hs0 : (0 : ℚ) < (s : ℚ) := by exact_mod_cast hs
    rw [Int.ceil_eq_iff]
    constructor
    · rw [lt_div_iff₀ hs0]
      have : ((k : ℚ) * s) + 1 ≤ (t : ℚ) + s := by exact_mod_cast hB
      push_cast
      linarith
    · rw [div_le_iff₀ hs0]
      exact_mod_cast hA
  rw [pagesCount, hceil]
  exact Int.toNat_natCast k

/-- Claim C8: `pages_count` is the ceiling of `total_count / page_size`
(equal to the integer form `(total + size - 1) / size`), and the clamp of
`page_move` sends any requested page index into `[0, pages_count - 1]`;
with `total_count = 23` and `page_size = 10` the page count is 3, a request
for page 5 clamps to 2 and a request for page -1 clamps to 0. -/
theorem C8_pages_count_clamp (t s : Nat) (r : Int) (hs : 0 < s) :
    pagesCount t s = (t + s - 1) / s ∧
    ((pagesCount t s : ℤ) = ⌈(t : ℚ) / (s : ℚ)⌉) ∧
    pagesCount 23 10 = 3 ∧
    pageMoveClamp 5 (pagesCount 23 10) = 2 ∧
    pageMoveClamp (-1) (pagesCount 23 10) = 0 ∧
    0 ≤ pageMoveClamp r (pagesCount t s) ∧
    (0 < pagesCount t s →
      pageMoveClamp r (pagesCount t s) ≤ (pagesCount t s : ℤ) - 1) := by
  have h2310 : pagesCount 23 10 = 3 := by
    rw [pagesCount_eq_add_pred_div 23 10 (by norm_num)]
  have hceil : (pagesCount t s : ℤ) = ⌈(t : ℚ) / (s : ℚ)⌉ := by
    rw [pagesCount]
    have : (0 : ℤ) ≤ ⌈(t : ℚ) / (s : ℚ)⌉ :=
      Int.ceil_nonneg (div_nonneg (Nat.cast_nonneg t) (Nat.cast_nonneg s))
    exact Int.toNat_of_nonneg this
  refine ⟨pagesCount_eq_add_pred_div t s hs, hceil, h2310, ?_, ?_, ?_, ?_⟩
  · rw [h2310]; rfl
  · rw [h2310]; rfl
  · simp only [pageMoveClamp]
    omega
  · intro hpc
    have hpc1 : (1 : ℤ) ≤ (pagesCount t s : ℤ) := by exact_mod_cast hpc
    simp only [pageMoveClamp]
    omega

/-- Claim C8, witness: the spec instance `total_count = 23`,
`page_size = 10`, requested page 5. -/
theorem C8_pages_count_clamp_witness :
    pagesCount 23 10 = 3 ∧
    pageMoveClamp 5 (pagesCount 23 10) = 2 ∧
    pageMoveClamp (-1) (pagesCount 23 10) = 0 :=
  ⟨(C8_pages_count_clamp 23 10 5 (by norm_num)).2.2.1,
    (C8_pages_count_clamp 23 10 5 (by norm_num)).2.2.2.1,
    (C8_pages_count_clamp 23 10 5 (by norm_num)).2.2.2.2.1⟩

/-! ## Claim C2: worker-loop error handling -/

/-- Claim C2, counterexample: a queue whose first job raises an exception
that is not `RuntimeError`.  The claim requires the failure not to crash
the worker loop and the loop to continue to the next job; the code lets
the exception propagate out of `run`, so the loop crashes and the
following healthy job is never invoked. -/
theorem C2_counterexample :
    (consumerRun [.job .raisesOther, .job .ok, .marker]).1 = .crashed ∧
    JobSpec.ok ∉ (consumerRun [.job .raisesOther, .job .ok, .marker]).2 := by
  decide

/-- Claim C2, amended: only `RuntimeError` raised by a dequeued job is
swallowed (silently, the loop continuing with the next item); a job
raising any other exception class terminates the worker loop at once,
and the items behind it are never dequeued.  The terminator still exits
the loop normally. -/
theorem C2_amended_error_handling (pre post : List QItem)
    (hpre : ∀ q ∈ pre, q = QItem.job .ok ∨ q = QItem.job .raisesRuntime) :
    consumerRun (pre ++ QItem.job .raisesOther :: post) =
      (.crashed, jobsOf pre ++ [.raisesOther]) ∧
    consumerRun (pre ++ QItem.marker :: post) = (.exited, jobsOf pre) := by
  induction pre with
  | nil => simp [consumerRun, jobsOf]
  | cons q qs ih =>
    have hq := hpre q (List.mem_cons_self q qs)
    have hqs : ∀ x ∈ qs, x = QItem.job .ok ∨ x = QItem.job .raisesRuntime :=
      fun x hx => hpre x (List.mem_cons_of_mem q hx)
    rcases hq with h | h <;> subst h <;>
      simp [consumerRun, jobsOf, (ih hqs).1, (ih hqs).2]

/-- Claim C2, witness: a healthy job and a `RuntimeError` job are both
survived; the foreign exception then kills the loop, or the terminator
ends it. -/
theorem C2_amended_error_handling_witness :
    consumerRun [QItem.job .ok, QItem.job .raisesRuntime,
        QItem.job .raisesOther, QItem.job .ok] =
      (.crashed, [.ok, .raisesRuntime, .raisesOther]) ∧
    consumerRun [QItem.job .ok, QItem.job .raisesRuntime,
        QItem.marker, QItem.job .ok] = (.exited, [.ok, .raisesRuntime]) := by
  have h := C2_amended_error_handling
    [QItem.job .ok, QItem.job .raisesRuntime] [QItem.job .ok] (by decide)
  simpa [jobsOf] using h

/-! ## Claim C3: two render submission passes per refresh -/

/-- Every job of the placeholder pass is a loading job. -/
theorem placeholderJobs_isLoading (frame : List (Option Entry)) :
    ∀ j ∈ placeholderJobs frame, j.isLoading = true ∧ j.path = "" ∧
      j.timestamp = TS.maxPrio := by
  induction frame with
  | nil => intro j hj; cases hj
  | cons e rest ih =>
    cases e with
    | none => exact ih
    | some e =>
      intro j hj
      rcases List.mem_cons.mp hj with rfl | hj
      · exact ⟨rfl, rfl, rfl⟩
      · exact ih j hj

/-- Every job of the real-content pass is a non-loading job. -/
theorem realJobs_not_isLoading (clock : Nat) (frame : List (Option Entry)) :
    ∀ j ∈ realJobs clock frame, j.isLoading = false := by
  induction frame generalizing clock with
  | nil => intro j hj; cases hj
  | cons e rest ih =>
    cases e with
    | none => exact ih clock
    | some e =>
      intro j hj
      rcases List.mem_cons.mp hj with rfl | hj
      · rfl
      · rcases List.mem_cons.mp hj with rfl | hj
        · rfl
        · exact ih (clock + 2) j hj

/-- The placeholder pass emits one job per populated slot. -/
theorem placeholderJobs_length (frame : List (Option Entry)) :
    (placeholderJobs frame).length = popCount frame := by
  induction frame with
  | nil => rfl
  | cons e rest ih =>
    cases e with
    | none => simpa [placeholderJobs, popCount, List.countP_cons] using ih
    | some e => simpa [placeholderJobs, popCount, List.countP_cons] using ih

/-- The real-content pass emits two jobs per populated slot. -/
theorem realJobs_length (clock : Nat) (frame : List (Option Entry)) :
    (realJobs clock frame).length = 2 * popCount frame := by
  induction frame generalizing clock with
  | nil => rfl
  | cons e rest ih =>
    cases e with
    | none => simpa [realJobs, popCount, List.countP_cons] using ih clock
    | some e =>
      have := ih (clock + 2)
      simp [realJobs, popCount, List.countP_cons] at this ⊢
      omega

/-- The real-content pass renders each populated path twice, in slot
order. -/
theorem realJobs_paths (clock : Nat) (frame : List (Option Entry)) :
    (realJobs clock frame).map (fun j => j.path) =
      (frame.filterMap id).flatMap (fun e => [e.path, e.path]) := by
  induction frame generalizing clock with
  | nil => rfl
  | cons e rest ih =>
    cases e with
    | none => simpa [realJobs, List.filterMap_cons] using ih clock
    | some e => simp [realJobs, List.filterMap_cons, ih (clock + 2)]

/-- Claim C3, counterexample: a frame holding one populated slot.  The
claim requires exactly two jobs for it (one placeholder, then a single
real-content job); `update_thumbs` enqueues three, the placeholder and two
identical real-content jobs (lines 1122, 1139 and 1168). -/
theorem C3_counterexample :
    (updateThumbsJobs 0 [some { path := "a" }]).length = 3 ∧
    ¬ (updateThumbsJobs 0 [some { path := "a" }]).length = 2 ∧
    (updateThumbsJobs 0 [some { path := "a" }]).countP
      (fun j => !j.isLoading) = 2 := by
  decide

/-- Claim C3, amended: per refresh each populated slot receives one
placeholder job (empty path, maximum-priority timestamp) and two
real-content jobs carrying the actual path, and within the batch every
placeholder job is enqueued before any real-content job. -/
theorem C3_two_phase_submission (clock : Nat) (frame : List (Option Entry)) :
    (updateThumbsJobs clock frame).countP (fun j => j.isLoading) =
      popCount frame ∧
    (updateThumbsJobs clock frame).countP (fun j => !j.isLoading) =
      2 * popCount frame ∧
    (updateThumbsJobs clock frame).Pairwise
      (fun a b => b.isLoading = true → a.isLoading = true) ∧
    ((updateThumbsJobs clock frame).filter (fun j => j.isLoading)).all
      (fun j => j.path == "" && j.timestamp == TS.maxPrio) = true ∧
    ((updateThumbsJobs clock frame).filter (fun j => !j.isLoading)).map
      (fun j => j.path) =
      (frame.filterMap id).flatMap (fun e => [e.path, e.path]) := by
  have hph := placeholderJobs_isLoading frame
  have hre := realJobs_not_isLoading clock frame
  have hfilter1 : (updateThumbsJobs clock frame).filter
      (fun j => j.isLoading) = placeholderJobs frame := by
    rw [updateThumbsJobs, List.filter_append]
    rw [List.filter_eq_self.mpr (fun j hj => (hph j hj).1),
      List.filter_eq_nil_iff.mpr (fun j hj => by simp [hre j hj]),
      List.append_nil]
  have hfilter2 : (updateThumbsJobs clock frame).filter
      (fun j => !j.isLoading) = realJobs clock frame := by
    rw [updateThumbsJobs, List.filter_append]
    rw [List.filter_eq_nil_iff.mpr (fun j hj => by simp [(hph j hj).1]),
      List.filter_eq_self.mpr (fun j hj => by simp [hre j hj]),
      List.nil_append]
  refine ⟨?_, ?_, ?_, ?_, ?_⟩
  · rw [List.countP_eq_length_filter, hfilter1, placeholderJobs_length]
  · rw [List.countP_eq_length_filter, hfilter2, realJobs_length]
  · rw [updateThumbsJobs, List.pairwise_append]
    refine ⟨List.pairwise_of_forall_mem_list (fun a ha b hb h => (hph a ha).1),
      List.pairwise_of_forall_mem_list (fun a ha b hb h => ?_),
      fun a ha b hb h => (hph a ha).1⟩
    exact absurd h (by simp [hre b hb])
  · rw [hfilter1, List.all_eq_true]
    intro j hj
    simp [(hph j hj).1, (hph j hj).2.1, (hph j hj).2.2]
  · rw [hfilter2, realJobs_paths]

/-- Claim C3, witness: the two-phase counts applied to a frame with one
populated and one empty slot. -/
theorem C3_two_phase_submission_witness :
    (updateThumbsJobs 0 [some { path := "a" }, none]).countP
      (fun j => j.isLoading) = 1 ∧
    (updateThumbsJobs 0 [some { path := "a" }, none]).countP
      (fun j => !j.isLoading) = 2 := by
  have h := C3_two_phase_submission 0 [some { path := "a" }, none]
  exact ⟨by rw [h.1]; decide, by rw [h.2.1]; decide⟩

/-! ## Claim C4: the selection subset invariant -/

/-- `select_item` only rewrites the selection; the frame is untouched. -/
theorem selectItemOp_frameContent (s : DriverState) (i : Nat) (a b : Bool) :
    (selectItemOp s i a b).frameContent = s.frameContent := by
  rw [selectItemOp]
  split
  · split <;> rfl
  · split <;> rfl

/-- Claim C4, counterexample: a reachable driver state violating the
subset invariant.  Load a two-entry page, click slot 1 (a populated slot),
then filter down to a one-entry page: `filter_items` replaces
`frame_content` but never touches `self.selected`, leaving index 1
selected with only slot 0 populated. -/
theorem C4_counterexample :
    DReachable { selected := [1], frameContent := [{ path := "a" }] } ∧
    selInv { selected := [1], frameContent := [{ path := "a" }] } = false := by
  refine ⟨?_, by decide⟩
  have h1 : DStep initDriver
      { selected := [], frameContent := [{ path := "a" }, { path := "b" }] } :=
    DStep.filterItems initDriver [{ path := "a" }, { path := "b" }]
  have h2 : DStep
      { selected := [], frameContent := [{ path := "a" }, { path := "b" }] }
      { selected := [1], frameContent := [{ path := "a" }, { path := "b" }] } :=
    DStep.selectItem _ 1 false false (by decide)
  have h3 : DStep
      { selected := [1], frameContent := [{ path := "a" }, { path := "b" }] }
      { selected := [1], frameContent := [{ path := "a" }] } :=
    DStep.filterItems _ [{ path := "a" }]
  exact Relation.ReflTransGen.tail
    (Relation.ReflTransGen.tail (Relation.ReflTransGen.single h1) h2) h3

/-- Claim C4, amended: the subset invariant is established and preserved by
`select_item` (for clicks, which land on populated slots), select-all,
clear-select and `close_library`; but `filter_items` (and therefore
`page_move`) leaves the selection list unchanged while replacing the frame
content, so the invariant is not an invariant of every reachable state —
it can be broken by a filter that shrinks the populated window. -/
theorem C4_selection_invariant_amended (s : DriverState) (i : Nat)
    (append bridge : Bool) (items : List Entry)
    (hinv : selInv s = true) (hi : i < s.frameContent.length) :
    selInv (selectItemOp s i append bridge) = true ∧
    selInv (selectAllOp s) = true ∧
    selInv (clearSelectOp s) = true ∧
    selInv (closeLibraryOp s) = true ∧
    (filterItemsOp s items).selected = s.selected := by
  have hinv' : ∀ x ∈ s.selected, x < s.frameContent.length := by
    intro x hx
    have := List.all_eq_true.mp hinv x hx
    simpa using this
  refine ⟨?_, ?_, rfl, rfl, rfl⟩
  · rw [selInv, List.all_eq_true]
    intro x hx
    simp only [decide_eq_true_eq, selectItemOp_frameContent]
    rcases append with _ | _
    · rcases bridge with _ | _
      · -- plain click: selection becomes the singleton clicked index
        have hx2 : x ∈ [i] := by simpa [selectItemOp] using hx
        rcases List.mem_cons.mp hx2 with rfl | hx0
        · exact hi
        · cases hx0
      · by_cases hsel : s.selected.isEmpty
        · -- empty selection: bridge falls through to the plain branch
          have hx2 : x ∈ [i] := by simpa [selectItemOp, hsel] using hx
          rcases List.mem_cons.mp hx2 with rfl | hx0
          · exact hi
          · cases hx0
        · have hselb : s.selected.isEmpty = false := by simpa using hsel
          have hsne : s.selected ≠ [] := by
            cases hs : s.selected with
            | nil => rw [hs] at hselb; cases hselb
            | cons a l => simp
          have hmax : listMax s.selected < s.frameContent.length :=
            hinv' _ (listMax_mem s.selected hsne)
          have hmm := listMin_le_listMax s.selected hsne
          have hx2 : x ∈ (if listMax s.selected < i then
              List.range' (listMin s.selected) (i + 1 - listMin s.selected)
            else List.range' i (listMax s.selected + 1 - i)) := by
            simpa [selectItemOp, hselb] using hx
          by_cases hlt : listMax s.selected < i
          · rw [if_pos hlt, List.mem_range'_1] at hx2
            omega
          · rw [if_neg hlt, List.mem_range'_1] at hx2
            omega
    · -- append: toggle, erase or push the clicked index
      by_cases hc : i ∈ s.selected
      · have hx2 : x ∈ s.selected.erase i := by
          simpa [selectItemOp, hc] using hx
        exact hinv' x (List.mem_of_mem_erase hx2)
      · have hx2 : x ∈ s.selected ++ [i] := by
          simpa [selectItemOp, hc] using hx
        rcases List.mem_append.mp hx2 with hx3 | hx3
        · exact hinv' x hx3
        · rcases List.mem_cons.mp hx3 with rfl | hx4
          · exact hi
          · cases hx4
  · rw [selInv, List.all_eq_true]
    intro x hx
    have : x ∈ List.range s.frameContent.length := hx
    simpa using List.mem_range.mp this

/-- Claim C4, witness: the amended preservation applied to a populated
two-slot page with slot 0 selected and slot 1 clicked in append mode. -/
theorem C4_selection_invariant_amended_witness :
    selInv (selectItemOp
      { selected := [0], frameContent := [{ path := "a" }, { path := "b" }] }
      1 true false) = true ∧
    selInv (selectAllOp
      { selected := [0], frameContent := [{ path := "a" }, { path := "b" }] }) =
      true :=
  ⟨(C4_selection_invariant_amended
      { selected := [0], frameContent := [{ path := "a" }, { path := "b" }] }
      1 true false [] (by decide) (by decide)).1,
    (C4_selection_invariant_amended
      { selected := [0], frameContent := [{ path := "a" }, { path := "b" }] }
      1 true false [] (by decide) (by decide)).2.1⟩

/-! ## Claim C5: the border-restore selection test -/

/-- Claim C5 (code evaluation at the failing input): with grid index 0
selected and slot 0 populated by an entry of id 7 in entry mode, the
border-restore step of `update_thumbs` computes `is_selected = False`
although index 0 is a member of the selection, because the tuple
`(mode, item_id)` is compared against a list of plain ints and Python
cross-type equality is always false. -/
theorem C5_restore_is_selected_always_false :
    restoreIsSelected (.sym "ItemType.ENTRY") (.int 7) [0] = false ∧
    (0 : Int) ∈ ([0] : List Int) ∧
    (∀ mode itemId : PyVal, ∀ selected : List Int,
      restoreIsSelected mode itemId selected = false) := by
  refine ⟨by decide, by decide, ?_⟩
  intro mode itemId selected
  rw [restoreIsSelected, pyMem]
  rw [List.any_eq_false]
  intro v hv
  rcases List.mem_map.mp hv with ⟨n, hn, rfl⟩
  simp [pyEq]

/-! ## Claim C1: cancellation in the update_thumbs prologue -/

/-- Clock freshness invariant: every finite timestamp ever handed out
(queued or in flight) lies strictly below the clock, and so does the
cutoff.  Placeholder jobs carry `sys.float_info.max` and are not bounded
by the clock. -/
def QInv (s : QState) : Prop :=
  (∀ t : Nat, TS.time t ∈ s.pending → t < s.clock) ∧
  (∀ t : Nat, TS.time t ∈ s.inflight → t < s.clock) ∧
  s.cutoff < s.clock

theorem qInv_init : QInv initQState := by
  refine ⟨?_, ?_, ?_⟩ <;> simp [initQState]

theorem qInv_step {s₁ s₂ : QState} (h : QStep s₁ s₂) (h1 : QInv s₁) :
    QInv s₂ := by
  obtain ⟨hp, hf, hc⟩ := h1
  cases h with
  | submit =>
    refine ⟨?_, fun t ht => Nat.lt_succ_of_lt (hf t ht),
      Nat.lt_succ_of_lt hc⟩
    intro t ht
    rcases List.mem_append.mp ht with ht | ht
    · exact Nat.lt_succ_of_lt (hp t ht)
    · rcases List.mem_cons.mp ht with heq | ht0
      · injection heq with h2
        subst h2
        exact Nat.lt_succ_self _
      · cases ht0
  | submitPlaceholder =>
    refine ⟨?_, hf, hc⟩
    intro t ht
    rcases List.mem_append.mp ht with ht | ht
    · exact hp t ht
    · rcases List.mem_cons.mp ht with heq | ht0
      · cases heq
      · cases ht0
  | cancelAll =>
    refine ⟨?_, ?_, ?_⟩
    · intro t ht
      cases ht
    · intro t ht
      exact Nat.lt_succ_of_lt (hf t ht)
    · exact Nat.lt_succ_self _
  | pop t rest hr2 =>
    refine ⟨fun u hu => hp u (hr2 ▸ List.mem_cons_of_mem t hu), ?_, hc⟩
    intro u hu
    rcases List.mem_cons.mp hu with heq | hu0
    · subst heq
      exact hp u (hr2 ▸ List.mem_cons_self _ rest)
    · exact hf u hu0
  | commit t hm hcut4 =>
    exact ⟨hp, fun u hu => hf u (List.mem_of_mem_erase hu), hc⟩
  | discard t hm hcut4 =>
    exact ⟨hp, fun u hu => hf u (List.mem_of_mem_erase hu), hc⟩

theorem qInv_reach {s₁ s₂ : QState} (h : QReach s₁ s₂) (h1 : QInv s₁) :
    QInv s₂ := by
  induction h with
  | refl => exact h1
  | tail hr hstep ih => exact qInv_step hstep ih

/-- The cutoff watermark only ever advances. -/
theorem cutoff_mono_step {s₁ s₂ : QState} (h : QStep s₁ s₂) (h1 : QInv s₁) :
    s₁.cutoff ≤ s₂.cutoff := by
  cases h with
  | submit => exact le_rfl
  | submitPlaceholder => exact le_rfl
  | cancelAll => exact Nat.le_of_lt h1.2.2
  | pop t rest hr2 => exact le_rfl
  | commit t hm hcut4 => exact le_rfl
  | discard t hm hcut4 => exact le_rfl

/-- A result that is not stale against a later cutoff is not stale
against an earlier one either. -/
theorem tsBelow_false_mono {ts : TS} {c₁ c₂ : Nat} (h : c₁ ≤ c₂)
    (h2 : tsBelow ts c₂ = false) : tsBelow ts c₁ = false := by
  cases ts with
  | time t =>
    simp only [tsBelow, decide_eq_false_iff_not] at h2 ⊢
    omega
  | maxPrio => rfl

/-- Along any execution, a timestamp newly committed after a state `s₁`
passed the staleness test against a cutoff at least that of `s₁`. -/
theorem committed_after {s₁ s₂ : QState} (h : QReach s₁ s₂) (h1 : QInv s₁) :
    s₁.cutoff ≤ s₂.cutoff ∧
      ∀ ts ∈ s₂.committed, ts ∈ s₁.committed ∨
        tsBelow ts s₁.cutoff = false := by
  induction h with
  | refl => exact ⟨le_rfl, fun ts ht => .inl ht⟩
  | tail hr hstep ih =>
    obtain ⟨hcut, hcom⟩ := ih
    have hmidInv := qInv_reach hr h1
    have hcut2 := cutoff_mono_step hstep hmidInv
    refine ⟨le_trans hcut hcut2, ?_⟩
    cases hstep with
    | submit => exact hcom
    | submitPlaceholder => exact hcom
    | cancelAll => exact hcom
    | pop t rest hr2 => exact hcom
    | commit t hm hcut3 =>
      intro u hu
      rcases List.mem_cons.mp hu with rfl | hu0
      · exact .inr (tsBelow_false_mono hcut hcut3)
      · exact hcom u hu0
    | discard t hm hcut3 => exact hcom

/-- In a cancellation-free suffix of an execution, no queued job is ever
stale: real submissions are stamped with the current clock, which never
drops below the cutoff, and placeholders are never stale. -/
theorem nc_pending_fresh {s₁ s₂ : QState} (h : QReachNC s₁ s₂)
    (h0 : s₁.cutoff ≤ s₁.clock ∧
      ∀ ts ∈ s₁.pending, tsBelow ts s₁.cutoff = false) :
    s₂.cutoff ≤ s₂.clock ∧
      ∀ ts ∈ s₂.pending, tsBelow ts s₂.cutoff = false := by
  induction h with
  | refl => exact h0
  | tail hr hstep ih =>
    obtain ⟨hcc, hpend⟩ := ih
    cases hstep with
    | submit =>
      refine ⟨Nat.le_succ_of_le hcc, ?_⟩
      intro ts ht
      rcases List.mem_append.mp ht with ht | ht
      · exact hpend ts ht
      · rcases List.mem_cons.mp ht with heq | ht0
        · subst heq
          simp only [tsBelow, decide_eq_false_iff_not]
          omega
        · cases ht0
    | submitPlaceholder =>
      refine ⟨hcc, ?_⟩
      intro ts ht
      rcases List.mem_append.mp ht with ht | ht
      · exact hpend ts ht
      · rcases List.mem_cons.mp ht with heq | ht0
        · subst heq
          rfl
        · cases ht0
    | pop t rest hr2 =>
      exact ⟨hcc, fun u hu => hpend u (hr2 ▸ List.mem_cons_of_mem t hu)⟩
    | commit t hm hcut4 => exact ⟨hcc, hpend⟩
    | discard t hm hcut4 => exact ⟨hcc, hpend⟩

/-- Claim C1, counterexample: a placeholder job (timestamp
`sys.float_info.max`, line 1125) submitted and popped before the
cancellation commits after it.  From the initial state, submit a
placeholder and let a worker pop it; the cancellation step then runs,
and the renderer still commits the in-flight result, because the
maximum-priority timestamp never predates any cutoff.  This falsifies
the claim that no job submitted before the cancellation can commit and
that every such job has its timestamp below the new cutoff. -/
theorem C1_counterexample :
    QReachable { pending := [], inflight := [TS.maxPrio], cutoff := 0,
                 clock := 1, committed := [] } ∧
    QStep { pending := [], inflight := [TS.maxPrio], cutoff := 0,
            clock := 1, committed := [] }
      (cancelAllStep { pending := [], inflight := [TS.maxPrio], cutoff := 0,
                       clock := 1, committed := [] }) ∧
    QStep (cancelAllStep { pending := [], inflight := [TS.maxPrio],
                           cutoff := 0, clock := 1, committed := [] })
      { pending := [], inflight := [], cutoff := 1, clock := 2,
        committed := [TS.maxPrio] } ∧
    tsBelow TS.maxPrio
      (cancelAllStep { pending := [], inflight := [TS.maxPrio],
                       cutoff := 0, clock := 1,
                       committed := [] }).cutoff = false := by
  refine ⟨?_, QStep.cancelAll _, ?_, rfl⟩
  · have h1 : QStep initQState
        { pending := [TS.maxPrio], inflight := [], cutoff := 0, clock := 1,
          committed := [] } :=
      QStep.submitPlaceholder initQState
    have h2 : QStep
        { pending := [TS.maxPrio], inflight := [], cutoff := 0, clock := 1,
          committed := [] }
        { pending := [], inflight := [TS.maxPrio], cutoff := 0, clock := 1,
          committed := [] } :=
      QStep.pop _ TS.maxPrio [] rfl
    exact Relation.ReflTransGen.tail (Relation.ReflTransGen.single h1) h2
  · have h4 : QStep
        { pending := [], inflight := [TS.maxPrio], cutoff := 1, clock := 2,
          committed := [] }
        { pending := [], inflight := [TS.maxPrio].erase TS.maxPrio,
          cutoff := 1, clock := 2, committed := [TS.maxPrio] } :=
      QStep.commit _ TS.maxPrio (List.mem_cons_self _ _) rfl
    simpa [cancelAllStep] using h4

/-- Claim C1, amended: the cancellation prologue of `update_thumbs`
clears the queue and advances the cutoff in one atomic step (both happen
under the queue mutex, which `put` also takes), so from any reachable
state: the queue is empty immediately after the cancellation; every
real-content job submitted before it — still pending or in flight — has
its `time.time()` timestamp strictly below the new cutoff, hence can
never commit later, since any job newly committed after the cancellation
passed the staleness test against at least the new cutoff; placeholder
jobs, stamped `sys.float_info.max`, are exempt by design and may still
commit after a cancellation; and in any continuation without a further
cancellation, no queued job is ever stale, so nothing freshly enqueued is
discarded. -/
theorem C1_cancel_all_race_free (s : QState) (hs : QReachable s) :
    (cancelAllStep s).pending = [] ∧
    (∀ t : Nat, TS.time t ∈ s.pending ∨ TS.time t ∈ s.inflight →
      t < (cancelAllStep s).cutoff) ∧
    (∀ s₂ : QState, QReach (cancelAllStep s) s₂ →
      ∀ ts ∈ s₂.committed, ts ∈ s.committed ∨
        tsBelow ts (cancelAllStep s).cutoff = false) ∧
    (∀ s₂ : QState, QReachNC (cancelAllStep s) s₂ →
      ∀ ts ∈ s₂.pending, tsBelow ts s₂.cutoff = false) := by
  have hinv : QInv s := qInv_reach hs qInv_init
  refine ⟨rfl, ?_, ?_, ?_⟩
  · intro t ht
    rcases ht with ht | ht
    · exact hinv.1 t ht
    · exact hinv.2.1 t ht
  · intro s₂ h2 ts ht
    have hinv2 : QInv (cancelAllStep s) := qInv_step (QStep.cancelAll s) hinv
    exact (committed_after h2 hinv2).2 ts ht
  · intro s₂ h2
    have h0 : (cancelAllStep s).cutoff ≤ (cancelAllStep s).clock ∧
        ∀ ts ∈ (cancelAllStep s).pending,
          tsBelow ts (cancelAllStep s).cutoff = false :=
      ⟨Nat.le_succ _, fun ts ht => by cases ht⟩
    exact (nc_pending_fresh h2 h0).2

/-- Claim C1, witness: the theorem applied to the initial state, reached
by the empty execution. -/
theorem C1_cancel_all_race_free_witness :
    (cancelAllStep initQState).pending = [] ∧
    (cancelAllStep initQState).cutoff = 1 :=
  ⟨(C1_cancel_all_race_free initQState Relation.ReflTransGen.refl).1, rfl⟩

/-! ## Claims C9 and C10: the recent-libraries list -/

theorem libsLe_trans : ∀ a b c : Nat × String,
    (fun a b : Nat × String => decide (b.1 ≤ a.1)) a b →
    (fun a b : Nat × String => decide (b.1 ≤ a.1)) b c →
    (fun a b : Nat × String => decide (b.1 ≤ a.1)) a c := by
  intro a b c hab hbc
  simp only [decide_eq_true_eq] at *
  omega

theorem libsLe_total : ∀ a b : Nat × String,
    ((fun a b : Nat × String => decide (b.1 ≤ a.1)) a b ||
      (fun a b : Nat × String => decide (b.1 ≤ a.1)) b a) := by
  intro a b
  simp only [Bool.or_eq_true, decide_eq_true_eq]
  omega

/-- When the fresh timestamp dominates every stored key, the sorted list
starts with the fresh entry. -/
theorem libs_sorted_head (now : Nat) (path : String)
    (settings : List (Nat × String))
    (h : ∀ kv ∈ settings, kv.1 < now) :
    ∃ l₂, ((now, path) :: settings.filter fun kv =>
        decide (kv.2 ≠ path)).mergeSort
        (fun a b : Nat × String => decide (b.1 ≤ a.1)) =
      (now, path) :: l₂ := by
  obtain ⟨l₁, l₂, he, hrest, hl₁⟩ :=
    List.mergeSort_cons libsLe_trans libsLe_total (now, path)
      (settings.filter fun kv => decide (kv.2 ≠ path))
  have hl1nil : l₁ = [] := by
    cases l₁ with
    | nil => rfl
    | cons b bs =>
      have hb : b ∈ (settings.filter fun kv => decide (kv.2 ≠ path)).mergeSort
          (fun a b : Nat × String => decide (b.1 ≤ a.1)) := by
        rw [hrest]
        exact List.mem_append_left _ (List.mem_cons_self b bs)
      have hb3 : b ∈ settings :=
        List.mem_of_mem_filter (List.mem_mergeSort.mp hb)
      have hlt := h b hb3
      have hno := hl₁ b (List.mem_cons_self b bs)
      simp at hno
      omega
  rw [hl1nil, List.nil_append] at he
  exact ⟨l₂, he⟩

/-- Claim C9: after `update_libs_list`, the stored recent-libraries list
holds at most five entries, the freshly opened path heads the list, and
the entries are ordered most-recent-first by their timestamp keys
(assuming the fresh `time.time()` reading exceeds every stored key, which
the monotone clock guarantees). -/
theorem C9_update_libs_list (now : Nat) (path : String)
    (settings : List (Nat × String))
    (h : ∀ kv ∈ settings, kv.1 < now) :
    (updateLibsList now path settings).length ≤ 5 ∧
    (updateLibsList now path settings).head? = some (now, path) ∧
    (updateLibsList now path settings).Pairwise
      (fun a b : Nat × String => b.1 ≤ a.1) ∧
    (∀ a ∈ updateLibsList now path settings,
      ∀ b ∈ (((now, path) :: settings.filter fun kv =>
          decide (kv.2 ≠ path)).mergeSort
          (fun a b : Nat × String => decide (b.1 ≤ a.1))).drop 5,
        b.1 ≤ a.1) := by
  obtain ⟨l₂, he⟩ := libs_sorted_head now path settings h
  have hul : updateLibsList now path settings =
      (now, path) :: l₂.take 4 := by
    rw [updateLibsList, he]
    rfl
  have hs := List.sorted_mergeSort libsLe_trans libsLe_total
    ((now, path) :: settings.filter fun kv => decide (kv.2 ≠ path))
  have hs2 : (((now, path) :: settings.filter fun kv =>
      decide (kv.2 ≠ path)).mergeSort
      (fun a b : Nat × String => decide (b.1 ≤ a.1))).Pairwise
        (fun a b : Nat × String => b.1 ≤ a.1) :=
    hs.imp (fun hab => of_decide_eq_true hab)
  refine ⟨?_, ?_, ?_, ?_⟩
  · rw [updateLibsList]
    exact List.length_take_le 5 _
  · rw [hul]
    rfl
  · rw [updateLibsList]
    exact hs2.sublist (List.take_sublist 5 _)
  · intro a ha b hb
    rw [updateLibsList] at ha
    have hsplit := List.take_append_drop 5
      ((((now, path) :: settings.filter fun kv =>
        decide (kv.2 ≠ path)).mergeSort
        (fun a b : Nat × String => decide (b.1 ≤ a.1))))
    rw [← hsplit] at hs2
    exact (List.pairwise_append.mp hs2).2.2 a ha b hb

/-- Claim C9, witness: the theorem applied to a concrete two-entry store. -/
theorem C9_update_libs_list_witness :
    (updateLibsList 10 "p" [(3, "x"), (2, "y")]).head? = some (10, "p") ∧
    (updateLibsList 10 "p" [(3, "x"), (2, "y")]).length ≤ 5 :=
  ⟨(C9_update_libs_list 10 "p" [(3, "x"), (2, "y")] (by decide)).2.1,
    (C9_update_libs_list 10 "p" [(3, "x"), (2, "y")] (by decide)).1⟩

/-- Claim C10: after `update_libs_list(path)` the stored list holds at
most one entry whose value is `path`, and any such entry carries the
fresh timestamp: the pre-existing entry for an already-listed library is
filtered out before the path is re-inserted under the fresh key. -/
theorem C10_no_duplicate_path (now : Nat) (path : String)
    (settings : List (Nat × String)) :
    (updateLibsList now path settings).countP
      (fun kv => decide (kv.2 = path)) ≤ 1 ∧
    ((updateLibsList now path settings).filter
      (fun kv => decide (kv.2 = path))).all
      (fun kv => decide (kv.1 = now)) = true := by
  constructor
  · have h1 : (updateLibsList now path settings).countP
        (fun kv => decide (kv.2 = path)) ≤
        ((((now, path) :: settings.filter fun kv =>
          decide (kv.2 ≠ path)).mergeSort
          (fun a b : Nat × String => decide (b.1 ≤ a.1)))).countP
          (fun kv => decide (kv.2 = path)) := by
      rw [updateLibsList]
      exact (List.take_sublist 5 _).countP_le _
    have h2 := (List.mergeSort_perm ((now, path) :: settings.filter fun kv =>
        decide (kv.2 ≠ path)) (fun a b : Nat × String =>
        decide (b.1 ≤ a.1))).countP_eq (fun kv => decide (kv.2 = path))
    have h3 : (((now, path) :: settings.filter fun kv =>
        decide (kv.2 ≠ path))).countP (fun kv => decide (kv.2 = path)) = 1 := by
      rw [List.countP_cons]
      have h0 : (settings.filter fun kv => decide (kv.2 ≠ path)).countP
          (fun kv => decide (kv.2 = path)) = 0 := by
        rw [List.countP_eq_zero]
        intro kv hkv
        have hne := List.of_mem_filter hkv
        simp at hne ⊢
        exact hne
      simp [h0]
    omega
  · rw [List.all_eq_true]
    intro kv hkv
    obtain ⟨hkv1, hkv2⟩ := List.mem_filter.mp hkv
    have hmem : kv ∈ ((now, path) :: settings.filter fun kv =>
        decide (kv.2 ≠ path)) := by
      apply List.mem_mergeSort.mp
      apply (List.take_sublist 5 _).subset
      rw [updateLibsList] at hkv1
      exact hkv1
    rcases List.mem_cons.mp hmem with rfl | hmem2
    · simp
    · have hne := List.of_mem_filter hmem2
      simp at hne hkv2
      exact absurd hkv2 hne

/-- Claim C10, witness: re-opening the library stored as `p` leaves one
entry for it. -/
theorem C10_no_duplicate_path_witness :
    (updateLibsList 10 "p" [(3, "p"), (2, "x")]).countP
      (fun kv => decide (kv.2 = "p")) ≤ 1 :=
  (C10_no_duplicate_path 10 "p" [(3, "p"), (2, "x")]).1

end TagStudio
